import Mathlib

/-!
Verification of the BIDS-input-merging resolution logic of the
`banana`/`nianalysis` repository, embedded shallowly from
`banana/analysis/base.py` (`BidsMixin.__init__` and
`BidsMixin.get_bids_inputs`).

Two embeddings are developed:

* a value-level embedding, in which Python dictionaries become association
  lists (`dinsert`/`dget`/`dupdate` reproduce Python's key-replacing
  assignment, lookup and `dict.update` on lists whose keys are unique by
  construction, and last-write-wins when duplicate keys are fed in), and
  `copy`-then-patch becomes a functional record update;

* a store-level embedding (`Store`, `getBidsInputsH`) in which `BidsInput`
  objects live in an explicit heap addressed by `Nat` references, Python's
  `copy.copy` becomes allocation of a fresh reference carrying the same
  value, and attribute assignment becomes a heap write.  This embedding
  makes the object-identity claims (defaults are never mutated, returned
  entries are fresh copies) expressible.
-/

set_option autoImplicit false

/-- A BIDS input specification (`BidsInput` / `BidsAssocInputs` from
`banana/bids_.py`, which is not part of the sources here).
Modelled from the spec: a named specification of an expected acquisition
with attributes `name` (spec identifier), `task` (optional scan-task
filter), a repository reference (set by the resolver, modelled as an
optional opaque handle), and, for "associated" inputs
(`BidsAssocInputs`, flag `isAssoc`), a reference to a primary input
(only its bare name `primaryName` is relevant here) together with a
`prefixedPrimaryName` used for name resolution in composite analyses. -/
structure BidsInput where
  name : String
  task : Option String
  repository : Option String
  isAssoc : Bool
  primaryName : String
  prefixedPrimaryName : String
deriving DecidableEq, Repr

/-- A caller-supplied explicit input (an input-filter object such as
`InputFilesets`): only its `spec_name` attribute is consulted by the code
under study; the rest of the object is opaque payload. -/
structure ExplicitInput where
  spec_name : String
  payload : String
deriving DecidableEq, Repr

/-- A value stored in the final inputs dictionary built by
`BidsMixin.__init__`: either a (copied, bound) default BIDS input or a
caller-supplied explicit input.  Python dictionaries are heterogeneous;
this sum type records which of the two kinds each entry is. -/
inductive InputEntry where
  | default (i : BidsInput)
  | explicit (e : ExplicitInput)
deriving DecidableEq, Repr

/-- The `dataset` argument of `BidsMixin.__init__`; only its `type`
attribute is consulted (`dataset.type == 'bids'`). -/
structure Dataset where
  type : String
deriving DecidableEq, Repr

/-- A sub-analysis specification of a composite (`MultiAnalysis`) class,
as returned by `cls.subcomp_specs()`: its assigned name and, when the
sub-analysis class has the attribute, its `default_bids_inputs` list
(`none` models absence of the attribute). -/
structure SubcompSpec where
  name : String
  defaults : Option (List BidsInput)
deriving DecidableEq, Repr

/-- Modelled from the spec: the sub-analysis name-prefixing function
`spec.apply_prefix` (provided by the external `arcana` framework and
specified here only at the boundary) maps a bare spec name to its
prefixed form by prepending the sub-analysis's assigned name and an
underscore, as in the spec's examples `sub1_mask`, `a_mag`, `b_mag`. -/
def applyPrefix (subName barename : String) : String :=
  subName ++ "_" ++ barename

/-- An analysis class as seen by `get_bids_inputs`: either a simple
analysis, whose `default_bids_inputs` attribute may be absent (`none`)
or a list of inputs, or a composite (`MultiAnalysis`) class with its
sub-analysis specifications. -/
inductive AnalysisClass where
  | simple (defaults : Option (List BidsInput))
  | multi (subcomps : List SubcompSpec)
deriving DecidableEq, Repr

section Dict

variable {α : Type}

/-- Python dictionary assignment `d[k] = v` on an association list with
unique keys: replace the entry with key `k` in place if present,
otherwise append `(k, v)` at the end (insertion order). -/
def dinsert : List (String × α) → String → α → List (String × α)
  | [], k, v => [(k, v)]
  | p :: rest, k, v =>
      if p.1 = k then (k, v) :: rest else p :: dinsert rest k v

/-- Python dictionary lookup `d[k]` (as an option). -/
def dget : List (String × α) → String → Option α
  | [], _ => none
  | p :: rest, k => if p.1 = k then some p.2 else dget rest k

/-- Python `d.update(other)`: iterate over `other`'s items in order,
assigning each into `d`. -/
def dupdate (d other : List (String × α)) : List (String × α) :=
  other.foldl (fun acc p => dinsert acc p.1 p.2) d

/-- The value the last item of `l` with key `k` carries, if any: the
value `k` ends up with after assigning all items of `l` into a
dictionary in order. -/
def lastVal (l : List (String × α)) (k : String) : Option α :=
  l.foldl (fun acc p => if p.1 = k then some p.2 else acc) none

/-- Left-biased choice on options. -/
def oor : Option α → Option α → Option α
  | some v, _ => some v
  | none, b => b

/-- The keys of an association list are pairwise distinct. -/
abbrev nodupKeys (d : List (String × α)) : Prop :=
  (d.map Prod.fst).Nodup

end Dict

/-- The per-copy task/repository binding applied by the second loop of
`get_bids_inputs` to (a fresh copy of) each default input:
`if inpt.task is None and task is not None: inpt.task = task` followed by
`inpt._repository = repository`. -/
def bindInput (task repository : Option String) (i : BidsInput) : BidsInput :=
  let i := if i.task = none ∧ task ≠ none then { i with task := task } else i
  { i with repository := repository }

/-- The copy-and-recompute step applied to associated inputs while
flattening a composite class's defaults:
`inpt = copy(inpt); inpt.prefixed_primary_name = spec.apply_prefix(inpt.primary.name)`
(at the value level the copy is the identity; the store-level embedding
below accounts for the fresh object). Non-associated inputs pass through
unchanged. -/
def prefixAssoc (subName : String) (i : BidsInput) : BidsInput :=
  if i.isAssoc then
    { i with prefixedPrimaryName := applyPrefix subName i.primaryName }
  else i

/-- One iteration of the composite-class loop of `get_bids_inputs`:
if the sub-analysis class has the `default_bids_inputs` attribute,
insert each of its inputs under the prefixed key
`spec.apply_prefix(inpt.name)`, recomputing `prefixed_primary_name`
first for associated inputs; a class without the attribute contributes
nothing (the `hasattr` guard). For a simple class, `buildDefaults`
instead keys the declared list by bare input name
(`{i.name: i for i in cls.default_bids_inputs}`), with an absent
attribute yielding the empty dictionary (the `AttributeError` branch). -/
def flattenSpec (acc : List (String × BidsInput)) (spec : SubcompSpec) :
    List (String × BidsInput) :=
  match spec.defaults with
  | none => acc
  | some l =>
      l.foldl (fun acc i =>
        dinsert acc (applyPrefix spec.name i.name) (prefixAssoc spec.name i))
        acc

/-- The `default_bids_inputs` dictionary built by the first half of
`get_bids_inputs`, one sub-analysis at a time for composite classes. -/
def buildDefaults : AnalysisClass → List (String × BidsInput)
  | .simple none => []
  | .simple (some l) => l.foldl (fun acc i => dinsert acc i.name i) []
  | .multi specs => specs.foldl flattenSpec []

/-- `BidsMixin.get_bids_inputs(cls, task=None, repository=None)`: build
the defaults dictionary, then copy each entry, bind its task filter and
repository reference, and collect into a fresh dictionary. -/
def get_bids_inputs (cls : AnalysisClass)
    (task repository : Option String) : List (String × BidsInput) :=
  (buildDefaults cls).foldl
    (fun acc p => dinsert acc p.1 (bindInput task repository p.2)) []

/-- The `inputs` argument of `BidsMixin.__init__`: `None`, a list of
explicit inputs, or a dictionary keyed by spec name. -/
inductive InputsArg where
  | noneArg
  | listArg (l : List ExplicitInput)
  | dictArg (d : List (String × ExplicitInput))
deriving DecidableEq, Repr

/-- The normalisation at the top of `BidsMixin.__init__`:
`None` becomes the empty dictionary, a list becomes
`{i.spec_name: i for i in inputs}`, and a dictionary is left as-is. -/
def normalize_inputs : InputsArg → List (String × ExplicitInput)
  | .noneArg => []
  | .listArg l => l.foldl (fun acc i => dinsert acc i.spec_name i) []
  | .dictArg d => d

/-- The inputs dictionary that `BidsMixin.__init__` passes on to the base
constructor: after normalisation, if `dataset.type == 'bids'` the default
BIDS inputs are resolved via `self.get_bids_inputs(bids_task)` — with the
`repository` parameter left at its default `None` — and the explicit
inputs are assigned over them (`bids_inputs.update(inputs)`); otherwise
the normalised explicit inputs are passed through unchanged. -/
def bidsMixin_init_inputs (cls : AnalysisClass) (dataset : Dataset)
    (inputs : InputsArg) (bids_task : Option String) :
    List (String × InputEntry) :=
  let inputs0 := normalize_inputs inputs
  let entries := inputs0.map (fun p => (p.1, InputEntry.explicit p.2))
  if dataset.type = "bids" then
    dupdate
      ((get_bids_inputs cls bids_task none).map
        (fun p => (p.1, InputEntry.default p.2)))
      entries
  else
    entries

/-! ## Store-level embedding

`get_bids_inputs` again, now with Python object identity made explicit:
`BidsInput` objects live in a heap addressed by `Nat` references, the
class-level `default_bids_inputs` declarations hold references,
`copy.copy(inpt)` allocates a fresh reference carrying the current value
of the copied object, and attribute assignment writes through a
reference.  This embedding expresses the claims about mutation and
object identity (the declared defaults are never written to; every
returned entry is a freshly allocated copy). -/

/-- A heap of `BidsInput` objects: `heap` gives the value stored at each
reference, and references below `next` are the allocated ones. -/
structure Store where
  heap : Nat → BidsInput
  next : Nat

/-- `copy.copy` target: allocate a fresh reference holding value `v`. -/
def Store.alloc (s : Store) (v : BidsInput) : Nat × Store :=
  (s.next, ⟨fun n => if n = s.next then v else s.heap n, s.next + 1⟩)

/-- Attribute assignment: overwrite the object at reference `r`. -/
def Store.write (s : Store) (r : Nat) (v : BidsInput) : Store :=
  ⟨fun n => if n = r then v else s.heap n, s.next⟩

/-- `copy.copy(inpt)`: a fresh object with the same (shallow) value. -/
def copyRef (s : Store) (r : Nat) : Nat × Store :=
  s.alloc (s.heap r)

/-- A sub-analysis specification whose `default_bids_inputs` attribute
(if present) is a list of references to class-level input objects. -/
structure SubcompSpecR where
  name : String
  defaults : Option (List Nat)

/-- An analysis class whose declared default inputs are references. -/
inductive AnalysisClassR where
  | simple (defaults : Option (List Nat))
  | multi (subcomps : List SubcompSpecR)

/-- All references held in the class-level declarations of the
sub-analysis specifications. -/
def subcompRefs : List SubcompSpecR → List Nat
  | [] => []
  | sp :: rest => sp.defaults.getD [] ++ subcompRefs rest

/-- All references held in the class-level declarations. -/
def classRefs : AnalysisClassR → List Nat
  | .simple none => []
  | .simple (some refs) => refs
  | .multi specs => subcompRefs specs

/-- One inner iteration of the composite-class loop, on the heap:
an associated input is copied (`copy(inpt)`) and the copy's
`prefixed_primary_name` is overwritten, then the copy's reference is
inserted under the prefixed key; a non-associated input's original
reference is inserted. -/
def assocStep (subName : String) (p : List (String × Nat) × Store)
    (r : Nat) : List (String × Nat) × Store :=
  if (p.2.heap r).isAssoc then
    (dinsert p.1 (applyPrefix subName (p.2.heap r).name) (copyRef p.2 r).1,
     (copyRef p.2 r).2.write (copyRef p.2 r).1
       { p.2.heap r with
           prefixedPrimaryName := applyPrefix subName (p.2.heap r).primaryName })
  else
    (dinsert p.1 (applyPrefix subName (p.2.heap r).name) r, p.2)

/-- One outer iteration of the composite-class loop: a sub-analysis class
without the `default_bids_inputs` attribute contributes nothing. -/
def specStepH (p : List (String × Nat) × Store) (sp : SubcompSpecR) :
    List (String × Nat) × Store :=
  match sp.defaults with
  | none => p
  | some refs => refs.foldl (assocStep sp.name) p

/-- The `default_bids_inputs` dictionary of references built by the first
half of `get_bids_inputs`, on the heap.  For a simple class the declared
references are keyed by the name of the object they point at, without
copying. -/
def buildDefaultsH : AnalysisClassR → Store → List (String × Nat) × Store
  | .simple none, s => ([], s)
  | .simple (some refs), s =>
      (refs.foldl (fun acc r => dinsert acc (s.heap r).name r) [], s)
  | .multi specs, s => specs.foldl specStepH ([], s)

/-- `if inpt.task is None and task is not None: inpt.task = task`,
through reference `r`. -/
def bindRefTask (task : Option String) (s : Store) (r : Nat) : Store :=
  if (s.heap r).task = none ∧ task ≠ none then
    s.write r { s.heap r with task := task }
  else s

/-- `inpt._repository = repository`, through reference `r`. -/
def setRefRepository (repository : Option String) (s : Store) (r : Nat) :
    Store :=
  s.write r { s.heap r with repository := repository }

/-- One iteration of the second loop of `get_bids_inputs`, on the heap:
`inpt = copy(inpt)`, conditional task binding, repository assignment,
then `inputs[name] = inpt`.  The fresh copy's reference is
`(copyRef p.2 kv.2).1 = p.2.next`. -/
def bindStep (task repository : Option String)
    (p : List (String × Nat) × Store) (kv : String × Nat) :
    List (String × Nat) × Store :=
  (dinsert p.1 kv.1 (copyRef p.2 kv.2).1,
   setRefRepository repository
     (bindRefTask task (copyRef p.2 kv.2).2 (copyRef p.2 kv.2).1)
     (copyRef p.2 kv.2).1)

/-- `BidsMixin.get_bids_inputs` on the heap: build the defaults
dictionary, then copy and bind each entry into a fresh dictionary. -/
def getBidsInputsH (cls : AnalysisClassR) (task repository : Option String)
    (s : Store) : List (String × Nat) × Store :=
  (buildDefaultsH cls s).1.foldl (bindStep task repository)
    ([], (buildDefaultsH cls s).2)

/-- Store `s1` extends `s0`: allocation has only moved forward and every
reference already allocated in `s0` holds an unchanged value. -/
def StoreExt (s0 s1 : Store) : Prop :=
  s0.next ≤ s1.next ∧ ∀ n, n < s0.next → s1.heap n = s0.heap n

/-! Concrete sample values, used to instantiate the universally
quantified statements below on explicit inputs. -/

/-- A plain default input with no task filter. -/
def sampleDefault : BidsInput := ⟨"bold", none, none, false, "", ""⟩

/-- A default input whose task filter is already set. -/
def sampleTaskSet : BidsInput := ⟨"anat", some "t1", none, false, "", ""⟩

/-- An associated (`BidsAssocInputs`) default input whose
`prefixed_primary_name` is stale. -/
def sampleAssocIn : BidsInput := ⟨"events", none, none, true, "bold", "old"⟩

/-- A caller-supplied explicit input with spec name `x`. -/
def sampleExplicit : ExplicitInput := ⟨"x", "pattern"⟩

/-- A second explicit input, with spec name `bold`, colliding with
`sampleDefault`. -/
def sampleExplicitBold : ExplicitInput := ⟨"bold", "runs"⟩

/-- A simple analysis class declaring one default input. -/
def sampleSimple : AnalysisClass := .simple (some [sampleDefault])

/-- A one-object heap: reference `0` holds the associated input. -/
def sampleStore : Store :=
  ⟨fun n => if n = 0 then sampleAssocIn else sampleDefault, 1⟩

/-- A composite class (on the heap) with one sub-analysis `sub1` whose
declared defaults hold reference `0`. -/
def sampleClassR : AnalysisClassR := .multi [⟨"sub1", some [0]⟩]

section DictLemmas

variable {α β : Type}

theorem dget_dinsert (d : List (String × α)) (k k' : String) (v : α) :
    dget (dinsert d k v) k' = if k = k' then some v else dget d k' := by
  induction d with
  | nil => simp [dinsert, dget]
  | cons p rest ih =>
      simp only [dinsert]
      by_cases h : p.1 = k
      · simp only [if_pos h, dget]
        by_cases h' : k = k'
        · simp [h']
        · simp [h', h ▸ h']
      · simp only [if_neg h, dget, ih]
        by_cases h' : p.1 = k'
        · have hk : ¬ k = k' := fun hkk => h (hkk ▸ h')
          simp [h', hk]
        · simp [h']

theorem mem_dinsert {q : String × α} :
    ∀ {d : List (String × α)} {k : String} {v : α},
      q ∈ dinsert d k v → q ∈ d ∨ q = (k, v) := by
  intro d
  induction d with
  | nil => intro k v h; simp [dinsert] at h; exact Or.inr h
  | cons p rest ih =>
      intro k v h
      simp only [dinsert] at h
      by_cases hp : p.1 = k
      · rw [if_pos hp] at h
        rcases List.mem_cons.mp h with h | h
        · exact Or.inr h
        · exact Or.inl (List.mem_cons_of_mem _ h)
      · rw [if_neg hp] at h
        rcases List.mem_cons.mp h with h | h
        · exact Or.inl (h ▸ List.mem_cons_self _ _)
        · rcases ih h with h | h
          · exact Or.inl (List.mem_cons_of_mem _ h)
          · exact Or.inr h

theorem mem_keys_dinsert {d : List (String × α)} {k a : String} {v : α} :
    a ∈ (dinsert d k v).map Prod.fst ↔ a = k ∨ a ∈ d.map Prod.fst := by
  induction d with
  | nil => simp [dinsert]
  | cons p rest ih =>
      simp only [dinsert]
      by_cases hp : p.1 = k
      · rw [if_pos hp]
        simp [hp, eq_comm]
      · rw [if_neg hp]
        simp only [List.map_cons, List.mem_cons, ih]
        tauto

theorem nodupKeys_dinsert {d : List (String × α)} {k : String} {v : α}
    (h : nodupKeys d) : nodupKeys (dinsert d k v) := by
  induction d with
  | nil => simp [dinsert, nodupKeys]
  | cons p rest ih =>
      simp only [nodupKeys, List.map_cons, List.nodup_cons] at h
      simp only [dinsert]
      by_cases hp : p.1 = k
      · rw [if_pos hp]
        simpa [nodupKeys, hp ▸ h.1] using h.2
      · rw [if_neg hp]
        refine List.Nodup.cons ?_ (ih h.2)
        intro hmem
        rcases mem_keys_dinsert.mp hmem with h' | h'
        · exact hp h'
        · exact h.1 h'

theorem foldl_preserve (P : β → Prop) (step : β → α → β)
    (hstep : ∀ p x, P p → P (step p x)) :
    ∀ (l : List α) (p : β), P p → P (l.foldl step p)
  | [], _, hp => hp
  | x :: l, p, hp => foldl_preserve P step hstep l (step p x) (hstep p x hp)

theorem oor_assoc (a b c : Option α) : oor (oor a b) c = oor a (oor b c) := by
  cases a <;> simp [oor]

theorem oor_none (a : Option α) : oor a none = a := by
  cases a <;> rfl

theorem foldl_lastVal (k : String) (l : List (String × α)) (a : Option α) :
    l.foldl (fun acc p => if p.1 = k then some p.2 else acc) a
      = oor (lastVal l k) a := by
  induction l generalizing a with
  | nil => simp [lastVal, oor]
  | cons p l ih =>
      rw [List.foldl_cons, ih]
      have hl : lastVal (p :: l) k
          = oor (lastVal l k) (if p.1 = k then some p.2 else none) := by
        show List.foldl _ _ (p :: l) = _
        rw [List.foldl_cons, ih]
      rw [hl, oor_assoc]
      by_cases h : p.1 = k <;> cases lastVal l k <;> simp [oor, h]

theorem lastVal_cons (p : String × α) (l : List (String × α)) (k : String) :
    lastVal (p :: l) k
      = oor (lastVal l k) (if p.1 = k then some p.2 else none) := by
  show List.foldl _ _ (p :: l) = _
  rw [List.foldl_cons, foldl_lastVal]

theorem dget_foldl_dinsert (l d : List (String × α)) (k : String) :
    dget (l.foldl (fun acc p => dinsert acc p.1 p.2) d) k
      = oor (lastVal l k) (dget d k) := by
  induction l generalizing d with
  | nil => simp [lastVal, oor]
  | cons p l ih =>
      rw [List.foldl_cons, ih, dget_dinsert, lastVal_cons, oor_assoc]
      by_cases h : p.1 = k <;> cases lastVal l k <;> simp [oor, h]

theorem dget_dupdate (d other : List (String × α)) (k : String) :
    dget (dupdate d other) k = oor (lastVal other k) (dget d k) :=
  dget_foldl_dinsert other d k

theorem lastVal_map (f : α → β) (l : List (String × α)) (k : String) :
    lastVal (l.map fun p => (p.1, f p.2)) k = (lastVal l k).map f := by
  induction l with
  | nil => rfl
  | cons p l ih =>
      rw [List.map_cons, lastVal_cons, lastVal_cons, ih]
      by_cases h : p.1 = k <;> cases lastVal l k <;> simp [oor, h]

theorem lastVal_eq_none {l : List (String × α)} {k : String}
    (h : k ∉ l.map Prod.fst) : lastVal l k = none := by
  induction l with
  | nil => rfl
  | cons p l ih =>
      simp only [List.map_cons, List.mem_cons] at h
      push_neg at h
      rw [lastVal_cons, ih h.2, if_neg (fun hpk => h.1 hpk.symm)]
      rfl

theorem lastVal_eq_dget {l : List (String × α)} (h : nodupKeys l)
    (k : String) : lastVal l k = dget l k := by
  induction l with
  | nil => rfl
  | cons p l ih =>
      simp only [nodupKeys, List.map_cons, List.nodup_cons] at h
      rw [lastVal_cons]
      by_cases hk : p.1 = k
      · rw [lastVal_eq_none (hk ▸ h.1), if_pos hk]
        simp [oor, dget, hk]
      · rw [if_neg hk, oor_none, ih h.2]
        simp [dget, hk]

theorem dget_map_val (f : α → β) (l : List (String × α)) (k : String) :
    dget (l.map fun p => (p.1, f p.2)) k = (dget l k).map f := by
  induction l with
  | nil => rfl
  | cons p l ih => by_cases h : p.1 = k <;> simp [dget, h, ih]

theorem dget_mem :
    ∀ {d : List (String × α)} {k : String} {v : α},
      dget d k = some v → (k, v) ∈ d := by
  intro d
  induction d with
  | nil => intro k v h; simp [dget] at h
  | cons p rest ih =>
      intro k v h
      simp only [dget] at h
      by_cases hp : p.1 = k
      · rw [if_pos hp] at h
        have : p = (k, v) := Prod.ext hp (Option.some.inj h)
        exact this ▸ List.mem_cons_self _ _
      · rw [if_neg hp] at h
        exact List.mem_cons_of_mem _ (ih h)

end DictLemmas

section ResolverLemmas

theorem nodupKeys_foldl_dinsert {α β : Type} (key : β → String) (val : β → α) :
    ∀ (l : List β) (d : List (String × α)), nodupKeys d →
      nodupKeys (l.foldl (fun acc x => dinsert acc (key x) (val x)) d)
  | [], _, hd => hd
  | x :: l, d, hd =>
      nodupKeys_foldl_dinsert key val l (dinsert d (key x) (val x))
        (nodupKeys_dinsert hd)

theorem nodupKeys_flattenSpec {d : List (String × BidsInput)}
    {spec : SubcompSpec} (h : nodupKeys d) : nodupKeys (flattenSpec d spec) := by
  cases hs : spec.defaults with
  | none => simpa [flattenSpec, hs] using h
  | some l =>
      simpa [flattenSpec, hs] using
        nodupKeys_foldl_dinsert
          (fun i => applyPrefix spec.name i.name)
          (fun i => prefixAssoc spec.name i) l d h

theorem nodupKeys_buildDefaults (cls : AnalysisClass) :
    nodupKeys (buildDefaults cls) := by
  cases cls with
  | simple d =>
      cases d with
      | none => simp [buildDefaults, nodupKeys]
      | some l =>
          exact nodupKeys_foldl_dinsert (fun i => i.name) (fun i => i) l []
            (by simp [nodupKeys])
  | multi specs =>
      exact foldl_preserve nodupKeys flattenSpec
        (fun d spec h => nodupKeys_flattenSpec h) specs []
        (by simp [nodupKeys])

theorem dget_buildDefaults_simple (l : List BidsInput) (k : String) :
    dget (buildDefaults (.simple (some l))) k
      = lastVal (l.map fun i => (i.name, i)) k := by
  show dget (l.foldl (fun acc i => dinsert acc i.name i) []) k = _
  have h1 : l.foldl (fun acc i => dinsert acc i.name i)
        ([] : List (String × BidsInput))
      = (l.map fun i => (i.name, i)).foldl
          (fun acc p => dinsert acc p.1 p.2) [] := by
    rw [List.foldl_map]
  rw [h1, dget_foldl_dinsert]
  simp [dget, oor_none]

theorem dget_get_bids_inputs (cls : AnalysisClass)
    (task repository : Option String) (k : String) :
    dget (get_bids_inputs cls task repository) k
      = (dget (buildDefaults cls) k).map (bindInput task repository) := by
  show dget ((buildDefaults cls).foldl
      (fun acc p => dinsert acc p.1 (bindInput task repository p.2)) []) k = _
  have h1 : (buildDefaults cls).foldl
        (fun acc p => dinsert acc p.1 (bindInput task repository p.2))
        ([] : List (String × BidsInput))
      = ((buildDefaults cls).map
          (fun p => (p.1, bindInput task repository p.2))).foldl
          (fun acc p => dinsert acc p.1 p.2) [] := by
    rw [List.foldl_map]
  rw [h1, dget_foldl_dinsert, lastVal_map,
    lastVal_eq_dget (nodupKeys_buildDefaults cls)]
  simp [dget, oor_none]

theorem mem_foldl_dinsert {α β : Type} (key : β → String) (val : β → α) :
    ∀ (l : List β) (d : List (String × α)) (q : String × α),
      q ∈ l.foldl (fun acc x => dinsert acc (key x) (val x)) d →
      q ∈ d ∨ ∃ x ∈ l, q = (key x, val x)
  | [], _, _, hq => Or.inl hq
  | x :: l, d, q, hq => by
      rcases mem_foldl_dinsert key val l (dinsert d (key x) (val x)) q hq with
        h | ⟨y, hy, hqy⟩
      · rcases mem_dinsert h with h | h
        · exact Or.inl h
        · exact Or.inr ⟨x, List.mem_cons_self _ _, h⟩
      · exact Or.inr ⟨y, List.mem_cons_of_mem _ hy, hqy⟩

theorem mem_flattenSpec {d : List (String × BidsInput)} {spec : SubcompSpec}
    {q : String × BidsInput} (hq : q ∈ flattenSpec d spec) :
    q ∈ d ∨ ∃ l, spec.defaults = some l ∧
      ∃ i ∈ l, q = (applyPrefix spec.name i.name, prefixAssoc spec.name i) := by
  cases hs : spec.defaults with
  | none =>
      rw [flattenSpec, hs] at hq
      exact Or.inl hq
  | some l =>
      rw [flattenSpec, hs] at hq
      rcases mem_foldl_dinsert (fun i => applyPrefix spec.name i.name)
          (fun i => prefixAssoc spec.name i) l d q hq with h | ⟨i, hi, hqi⟩
      · exact Or.inl h
      · exact Or.inr ⟨l, rfl, i, hi, hqi⟩

theorem mem_buildDefaults_multi {specs : List SubcompSpec}
    {q : String × BidsInput} (hq : q ∈ buildDefaults (.multi specs)) :
    ∃ spec ∈ specs, ∃ l, spec.defaults = some l ∧
      ∃ i ∈ l, q = (applyPrefix spec.name i.name, prefixAssoc spec.name i) := by
  have haux : ∀ (ss : List SubcompSpec) (d : List (String × BidsInput)),
      q ∈ ss.foldl flattenSpec d →
      q ∈ d ∨ ∃ spec ∈ ss, ∃ l, spec.defaults = some l ∧
        ∃ i ∈ l, q = (applyPrefix spec.name i.name, prefixAssoc spec.name i) := by
    intro ss
    induction ss with
    | nil => exact fun d h => Or.inl h
    | cons sp ss ih =>
        intro d h
        rcases ih (flattenSpec d sp) h with h' | ⟨spec, hsp, rest⟩
        · rcases mem_flattenSpec h' with h'' | ⟨l, hl, i, hi, hqi⟩
          · exact Or.inl h''
          · exact Or.inr ⟨sp, List.mem_cons_self _ _, l, hl, i, hi, hqi⟩
        · exact Or.inr ⟨spec, List.mem_cons_of_mem _ hsp, rest⟩
  rcases haux specs [] hq with h | h
  · simp at h
  · exact h

theorem bindInput_repository (task repository : Option String)
    (i : BidsInput) : (bindInput task repository i).repository = repository :=
  rfl

theorem bindInput_task_unset {task repository : Option String} {i : BidsInput}
    (hi : i.task = none) (ht : task ≠ none) :
    (bindInput task repository i).task = task := by
  rw [bindInput, if_pos ⟨hi, ht⟩]

theorem bindInput_task_set {task repository : Option String} {i : BidsInput}
    (hi : i.task ≠ none) : (bindInput task repository i).task = i.task := by
  rw [bindInput, if_neg (fun h => hi h.1)]

theorem prefixAssoc_name (subName : String) (i : BidsInput) :
    (prefixAssoc subName i).name = i.name := by
  rw [prefixAssoc]
  split <;> rfl

theorem prefixAssoc_isAssoc (subName : String) (i : BidsInput) :
    (prefixAssoc subName i).isAssoc = i.isAssoc := by
  rw [prefixAssoc]
  split <;> rfl

theorem prefixAssoc_prefixedPrimaryName {subName : String} {i : BidsInput}
    (h : i.isAssoc = true) :
    (prefixAssoc subName i).prefixedPrimaryName
      = applyPrefix subName i.primaryName := by
  rw [prefixAssoc, if_pos h]

theorem applyPrefix_right_inj {n1 n2 bn : String}
    (h : applyPrefix n1 bn = applyPrefix n2 bn) : n1 = n2 := by
  have hd : n1.data ++ ('_' :: bn.data) = n2.data ++ ('_' :: bn.data) := by
    have := congrArg String.data h
    simpa [applyPrefix, String.data_append] using this
  have : n1.data = n2.data := List.append_cancel_right hd
  cases n1
  cases n2
  exact congrArg String.mk this

end ResolverLemmas

section StoreLemmas

theorem storeExt_refl (s : Store) : StoreExt s s :=
  ⟨Nat.le_refl _, fun _ _ => rfl⟩

theorem storeExt_alloc {s0 s : Store} (h : StoreExt s0 s) (v : BidsInput) :
    StoreExt s0 (s.alloc v).2 := by
  refine ⟨Nat.le_trans h.1 (Nat.le_succ _), fun n hn => ?_⟩
  have hne : n ≠ s.next := Nat.ne_of_lt (Nat.lt_of_lt_of_le hn h.1)
  show (if n = s.next then v else s.heap n) = s0.heap n
  rw [if_neg hne, h.2 n hn]

theorem storeExt_write_high {s0 s : Store} {r : Nat} (h : StoreExt s0 s)
    (hr : s0.next ≤ r) (v : BidsInput) : StoreExt s0 (s.write r v) := by
  refine ⟨h.1, fun n hn => ?_⟩
  have hne : n ≠ r := Nat.ne_of_lt (Nat.lt_of_lt_of_le hn hr)
  show (if n = r then v else s.heap n) = s0.heap n
  rw [if_neg hne, h.2 n hn]

theorem storeExt_copyRef {s0 s : Store} (h : StoreExt s0 s) (r : Nat) :
    StoreExt s0 (copyRef s r).2 :=
  storeExt_alloc h _

theorem storeExt_bindRefTask {s0 s : Store} {r : Nat} (h : StoreExt s0 s)
    (hr : s0.next ≤ r) (task : Option String) :
    StoreExt s0 (bindRefTask task s r) := by
  unfold bindRefTask
  split
  · exact storeExt_write_high h hr _
  · exact h

theorem storeExt_setRefRepository {s0 s : Store} {r : Nat} (h : StoreExt s0 s)
    (hr : s0.next ≤ r) (repository : Option String) :
    StoreExt s0 (setRefRepository repository s r) :=
  storeExt_write_high h hr _

theorem storeExt_assocStep {s0 : Store} (subName : String)
    (p : List (String × Nat) × Store) (r : Nat) (h : StoreExt s0 p.2) :
    StoreExt s0 (assocStep subName p r).2 := by
  unfold assocStep
  split
  · exact storeExt_write_high (storeExt_copyRef h r) h.1 _
  · exact h

theorem storeExt_specStepH {s0 : Store} (p : List (String × Nat) × Store)
    (sp : SubcompSpecR) (h : StoreExt s0 p.2) :
    StoreExt s0 (specStepH p sp).2 := by
  unfold specStepH
  split
  · exact h
  · exact foldl_preserve (fun p => StoreExt s0 p.2) (assocStep sp.name)
      (fun p r hp => storeExt_assocStep sp.name p r hp) _ p h

theorem storeExt_buildDefaultsH (cls : AnalysisClassR) (s : Store) :
    StoreExt s (buildDefaultsH cls s).2 := by
  cases cls with
  | simple d => cases d <;> exact storeExt_refl s
  | multi specs =>
      exact foldl_preserve (fun p => StoreExt s p.2) specStepH
        (fun p sp hp => storeExt_specStepH p sp hp) specs ([], s)
        (storeExt_refl s)

theorem bindStep_inv {s0 : Store} (task repository : Option String)
    (p : List (String × Nat) × Store) (kv : String × Nat)
    (h : StoreExt s0 p.2 ∧ ∀ q ∈ p.1, s0.next ≤ q.2) :
    StoreExt s0 (bindStep task repository p kv).2 ∧
      ∀ q ∈ (bindStep task repository p kv).1, s0.next ≤ q.2 := by
  constructor
  · exact storeExt_setRefRepository
      (storeExt_bindRefTask (storeExt_copyRef h.1 kv.2) h.1.1 task)
      h.1.1 repository
  · intro q hq
    rcases mem_dinsert hq with hq | hq
    · exact h.2 q hq
    · rw [hq]
      exact h.1.1

theorem getBidsInputsH_spec (cls : AnalysisClassR)
    (task repository : Option String) (s : Store) :
    StoreExt s (getBidsInputsH cls task repository s).2 ∧
      ∀ q ∈ (getBidsInputsH cls task repository s).1, s.next ≤ q.2 := by
  have h0 : StoreExt s (buildDefaultsH cls s).2 := storeExt_buildDefaultsH cls s
  exact foldl_preserve
    (fun p : List (String × Nat) × Store =>
      StoreExt s p.2 ∧ ∀ q ∈ p.1, s.next ≤ q.2)
    (bindStep task repository)
    (fun p kv hp => bindStep_inv task repository p kv hp)
    (buildDefaultsH cls s).1 ([], (buildDefaultsH cls s).2)
    ⟨h0, by intro q hq; simp at hq⟩

end StoreLemmas

theorem dget_keyed_of_mem {l : List ExplicitInput}
    (hnd : (l.map fun i => i.spec_name).Nodup) {i : ExplicitInput}
    (hi : i ∈ l) :
    dget (l.map fun i => (i.spec_name, i)) i.spec_name = some i := by
  induction l with
  | nil => cases hi
  | cons j l ih =>
      simp only [List.map_cons, List.nodup_cons] at hnd
      rcases List.mem_cons.mp hi with h | h
      · subst h
        simp [dget]
      · have hne : j.spec_name ≠ i.spec_name := by
          intro he
          exact hnd.1 (he ▸ List.mem_map_of_mem _ h)
        simp only [List.map_cons, dget]
        rw [if_neg hne]
        exact ih hnd.2 h

/-! ## Claims -/

/-- C1: in `BidsMixin.__init__` on a BIDS-type dataset, the merge of the
resolved default BIDS inputs with the caller-supplied explicit inputs is
a shallow merge in which the explicit entry wins outright for every name
present in both mappings, names present only in the defaults keep their
default entry, and names present only in the explicit inputs are
added. -/
theorem bids_merge_explicit_precedence (cls : AnalysisClass) (ds : Dataset)
    (ed : List (String × ExplicitInput)) (task : Option String)
    (name : String) (hb : ds.type = "bids") (hnd : nodupKeys ed) :
    (∀ e, dget ed name = some e →
      dget (bidsMixin_init_inputs cls ds (.dictArg ed) task) name
        = some (.explicit e)) ∧
    (dget ed name = none → ∀ i,
      dget (get_bids_inputs cls task none) name = some i →
      dget (bidsMixin_init_inputs cls ds (.dictArg ed) task) name
        = some (.default i)) := by
  have hres : dget (bidsMixin_init_inputs cls ds (.dictArg ed) task) name
      = oor ((dget ed name).map InputEntry.explicit)
          ((dget (get_bids_inputs cls task none) name).map
            InputEntry.default) := by
    simp only [bidsMixin_init_inputs, normalize_inputs]
    rw [if_pos hb, dget_dupdate, dget_map_val, lastVal_map,
      lastVal_eq_dget hnd]
  constructor
  · intro e he
    rw [hres, he]
    rfl
  · intro hnone i hi
    rw [hres, hnone, hi]
    rfl

/-- C1 witness: `sampleExplicitBold` collides with the default `bold`
entry of `sampleSimple` and wins; `sampleExplicit` (name `x`, only
explicit) is added. -/
theorem bids_merge_explicit_precedence_witness :
    (Dataset.mk "bids").type = "bids" ∧
    nodupKeys [("bold", sampleExplicitBold), ("x", sampleExplicit)] ∧
    dget [("bold", sampleExplicitBold), ("x", sampleExplicit)] "bold"
      = some sampleExplicitBold ∧
    dget (bidsMixin_init_inputs sampleSimple ⟨"bids"⟩
        (.dictArg [("bold", sampleExplicitBold), ("x", sampleExplicit)])
        none) "bold"
      = some (.explicit sampleExplicitBold) :=
  ⟨rfl, by decide, by decide,
    (bids_merge_explicit_precedence sampleSimple ⟨"bids"⟩
      [("bold", sampleExplicitBold), ("x", sampleExplicit)] none "bold"
      rfl (by decide)).1 sampleExplicitBold (by decide)⟩

/-- C2: when the dataset's type is not `bids`, `BidsMixin.__init__`
passes the caller-supplied explicit inputs to the base constructor
unmodified (up to normalisation of a list into a mapping keyed by spec
name): no defaults are resolved or merged, whatever defaults the class
declares. -/
theorem nonbids_bypass (cls : AnalysisClass) (ds : Dataset)
    (inputs : InputsArg) (task : Option String) (hb : ds.type ≠ "bids") :
    bidsMixin_init_inputs cls ds inputs task
      = (normalize_inputs inputs).map
          (fun p => (p.1, InputEntry.explicit p.2)) := by
  simp only [bidsMixin_init_inputs]
  rw [if_neg hb]

/-- C2 witness: an XNAT dataset bypasses the defaults of
`sampleSimple`. -/
theorem nonbids_bypass_witness :
    (Dataset.mk "xnat").type ≠ "bids" ∧
    bidsMixin_init_inputs sampleSimple ⟨"xnat"⟩
        (.listArg [sampleExplicit]) none
      = [("x", .explicit sampleExplicit)] :=
  ⟨by decide,
    (nonbids_bypass sampleSimple ⟨"xnat"⟩ (.listArg [sampleExplicit]) none
      (by decide)).trans (by decide)⟩

/-- C4: for every entry of the defaults mapping processed by
`get_bids_inputs`, the returned copy at that name is the bound copy; if
its task filter was unset and a non-`None` task argument is supplied the
copy's task filter equals the supplied task, while an already-set task
filter is retained for every value of the task argument. -/
theorem task_binding (cls : AnalysisClass) (task repository : Option String)
    (name : String) (i : BidsInput)
    (h : dget (buildDefaults cls) name = some i) :
    dget (get_bids_inputs cls task repository) name
        = some (bindInput task repository i) ∧
    (i.task = none → task ≠ none →
      (bindInput task repository i).task = task) ∧
    (i.task ≠ none → (bindInput task repository i).task = i.task) := by
  refine ⟨?_, fun h1 h2 => bindInput_task_unset h1 h2,
    fun h1 => bindInput_task_set h1⟩
  rw [dget_get_bids_inputs, h]
  rfl

/-- C4 witness: the unset filter of `sampleDefault` is bound to `rest`;
the pre-set filter `t1` of `sampleTaskSet` survives `task=rest`. -/
theorem task_binding_witness :
    dget (buildDefaults (.simple (some [sampleDefault, sampleTaskSet])))
        "bold" = some sampleDefault ∧
    dget (get_bids_inputs (.simple (some [sampleDefault, sampleTaskSet]))
        (some "rest") none) "bold"
      = some (bindInput (some "rest") none sampleDefault) ∧
    (bindInput (some "rest") none sampleDefault).task = some "rest" ∧
    dget (buildDefaults (.simple (some [sampleDefault, sampleTaskSet])))
        "anat" = some sampleTaskSet ∧
    (bindInput (some "rest") none sampleTaskSet).task = some "t1" :=
  ⟨by decide,
    (task_binding (.simple (some [sampleDefault, sampleTaskSet]))
      (some "rest") none "bold" sampleDefault (by decide)).1,
    ((task_binding (.simple (some [sampleDefault, sampleTaskSet]))
      (some "rest") none "bold" sampleDefault (by decide)).2.1
        (by decide) (by decide)),
    by decide,
    ((task_binding (.simple (some [sampleDefault, sampleTaskSet]))
      (some "rest") none "anat" sampleTaskSet (by decide)).2.2
        (by decide))⟩

/-- C7: an analysis class without the `default_bids_inputs` attribute —
and a composite class all of whose sub-analysis classes lack it —
yields an empty mapping from `get_bids_inputs`, for all task and
repository arguments, with no error raised (the functions are total). -/
theorem absent_defaults_empty (task repository : Option String)
    (specs : List SubcompSpec)
    (hnone : ∀ sp ∈ specs, sp.defaults = none) :
    get_bids_inputs (.simple none) task repository = [] ∧
    get_bids_inputs (.multi specs) task repository = [] := by
  have haux : ∀ (ss : List SubcompSpec) (d : List (String × BidsInput)),
      (∀ sp ∈ ss, sp.defaults = none) → ss.foldl flattenSpec d = d := by
    intro ss
    induction ss with
    | nil => intro d _; rfl
    | cons sp ss ih =>
        intro d hn
        rw [List.foldl_cons]
        have hfl : flattenSpec d sp = d := by
          unfold flattenSpec
          rw [hn sp (List.mem_cons_self _ _)]
        rw [hfl, ih _ (fun x hx => hn x (List.mem_cons_of_mem _ hx))]
  constructor
  · rfl
  · show (buildDefaults (.multi specs)).foldl _ [] = []
    rw [show buildDefaults (.multi specs) = [] from haux specs [] hnone]
    rfl

/-- C7 witness: a class with no declared defaults, and a composite whose
single sub-analysis declares none, both resolve to the empty mapping. -/
theorem absent_defaults_empty_witness :
    (∀ sp ∈ [SubcompSpec.mk "sub1" none], sp.defaults = none) ∧
    get_bids_inputs (.simple none) (some "rest") none = [] ∧
    get_bids_inputs (.multi [SubcompSpec.mk "sub1" none])
      (some "rest") none = [] :=
  ⟨by decide,
    (absent_defaults_empty (some "rest") none [SubcompSpec.mk "sub1" none]
      (by decide)).1,
    (absent_defaults_empty (some "rest") none [SubcompSpec.mk "sub1" none]
      (by decide)).2⟩

/-- C5: `get_bids_inputs` keys every sub-analysis-contributed default
input of a composite class by the sub-analysis's name-prefixing function
applied to the input's bare name; consequently two sub-analyses with
distinct prefixes each declaring a default input with the same bare name
yield two distinct keys with both inputs present, never a collision. -/
theorem prefix_disambiguation (specs : List SubcompSpec)
    (q : String × BidsInput) (hq : q ∈ buildDefaults (.multi specs))
    (n1 n2 bn : String) (i1 i2 : BidsInput) (task : Option String)
    (hne : n1 ≠ n2) (h1 : i1.name = bn) (h2 : i2.name = bn) :
    (∃ spec ∈ specs, ∃ l, spec.defaults = some l ∧
        ∃ i ∈ l, q.1 = applyPrefix spec.name i.name) ∧
    applyPrefix n1 bn ≠ applyPrefix n2 bn ∧
    dget (get_bids_inputs (.multi [⟨n1, some [i1]⟩, ⟨n2, some [i2]⟩])
        task none) (applyPrefix n1 bn)
      = some (bindInput task none (prefixAssoc n1 i1)) ∧
    dget (get_bids_inputs (.multi [⟨n1, some [i1]⟩, ⟨n2, some [i2]⟩])
        task none) (applyPrefix n2 bn)
      = some (bindInput task none (prefixAssoc n2 i2)) := by
  have hkey : applyPrefix n1 bn ≠ applyPrefix n2 bn :=
    fun h => hne (applyPrefix_right_inj h)
  subst h1
  have hkey2 : applyPrefix n1 i1.name ≠ applyPrefix n2 i2.name := by
    rw [h2]
    exact hkey
  have hbd : buildDefaults (.multi [⟨n1, some [i1]⟩, ⟨n2, some [i2]⟩])
      = [(applyPrefix n1 i1.name, prefixAssoc n1 i1),
         (applyPrefix n2 i2.name, prefixAssoc n2 i2)] := by
    simp [buildDefaults, flattenSpec, dinsert, hkey2]
  refine ⟨?_, hkey, ?_, ?_⟩
  · rcases mem_buildDefaults_multi hq with ⟨spec, hsp, l, hl, i, hi, hqi⟩
    exact ⟨spec, hsp, l, hl, i, hi, by rw [hqi]⟩
  · rw [dget_get_bids_inputs, hbd]
    simp [dget]
  · rw [dget_get_bids_inputs, hbd, h2]
    simp [dget, hkey]

/-- C5 witness: sub-analyses `sub1` and `sub2` each declare `bold`;
the flattened mapping holds both under `sub1_bold` and `sub2_bold`. -/
theorem prefix_disambiguation_witness :
    (applyPrefix "sub1" sampleDefault.name, prefixAssoc "sub1" sampleDefault)
      ∈ buildDefaults (.multi [⟨"sub1", some [sampleDefault]⟩]) ∧
    ("sub1" : String) ≠ "sub2" ∧
    applyPrefix "sub1" "bold" ≠ applyPrefix "sub2" "bold" ∧
    dget (get_bids_inputs
        (.multi [⟨"sub1", some [sampleDefault]⟩,
                 ⟨"sub2", some [sampleDefault]⟩]) none none)
        (applyPrefix "sub1" "bold")
      = some (bindInput none none (prefixAssoc "sub1" sampleDefault)) ∧
    dget (get_bids_inputs
        (.multi [⟨"sub1", some [sampleDefault]⟩,
                 ⟨"sub2", some [sampleDefault]⟩]) none none)
        (applyPrefix "sub2" "bold")
      = some (bindInput none none (prefixAssoc "sub2" sampleDefault)) :=
  ⟨by decide, by decide,
    (prefix_disambiguation [⟨"sub1", some [sampleDefault]⟩]
      (applyPrefix "sub1" sampleDefault.name,
        prefixAssoc "sub1" sampleDefault)
      (by decide) "sub1" "sub2" "bold" sampleDefault sampleDefault none
      (by decide) (by decide) (by decide)).2.1,
    (prefix_disambiguation [⟨"sub1", some [sampleDefault]⟩]
      (applyPrefix "sub1" sampleDefault.name,
        prefixAssoc "sub1" sampleDefault)
      (by decide) "sub1" "sub2" "bold" sampleDefault sampleDefault none
      (by decide) (by decide) (by decide)).2.2.1,
    (prefix_disambiguation [⟨"sub1", some [sampleDefault]⟩]
      (applyPrefix "sub1" sampleDefault.name,
        prefixAssoc "sub1" sampleDefault)
      (by decide) "sub1" "sub2" "bold" sampleDefault sampleDefault none
      (by decide) (by decide) (by decide)).2.2.2⟩

/-- C8: explicit inputs supplied as a list are converted to a mapping in
which each item is keyed by its own `spec_name`; `None` becomes the
empty mapping. -/
theorem list_inputs_keyed (l : List ExplicitInput)
    (hnd : (l.map fun i => i.spec_name).Nodup) (i : ExplicitInput)
    (hi : i ∈ l) (k : String) (v : ExplicitInput)
    (hk : dget (normalize_inputs (.listArg l)) k = some v) :
    normalize_inputs .noneArg = [] ∧
    dget (normalize_inputs (.listArg l)) i.spec_name = some i ∧
    v.spec_name = k ∧ v ∈ l := by
  have hfold : normalize_inputs (.listArg l)
      = (l.map fun i => (i.spec_name, i)).foldl
          (fun acc p => dinsert acc p.1 p.2) [] := by
    show l.foldl (fun acc i => dinsert acc i.spec_name i) [] = _
    rw [List.foldl_map]
  have hndk : nodupKeys (l.map fun i => (i.spec_name, i)) := by
    simpa [nodupKeys, List.map_map, Function.comp] using hnd
  refine ⟨rfl, ?_, ?_⟩
  · rw [hfold, dget_foldl_dinsert, lastVal_eq_dget hndk,
      dget_keyed_of_mem hnd hi]
    rfl
  · rw [hfold] at hk
    rcases mem_foldl_dinsert Prod.fst Prod.snd
        (l.map fun i => (i.spec_name, i)) [] (k, v) (dget_mem hk) with
      h | ⟨x, hx, hqx⟩
    · cases h
    · rcases List.mem_map.mp hx with ⟨y, hy, hxy⟩
      have hx' : (k, v) = x := by simpa using hqx
      rw [← hxy] at hx'
      have h1 : k = y.spec_name := congrArg Prod.fst hx'
      have h2 : v = y := congrArg Prod.snd hx'
      subst h2
      exact ⟨h1.symm, hy⟩

/-- C8 witness: a two-element list is keyed by each item's spec name,
`None` is the empty mapping, and the entry found under `x` is
`sampleExplicit` itself. -/
theorem list_inputs_keyed_witness :
    ([sampleExplicit, sampleExplicitBold].map
      (fun i => i.spec_name)).Nodup ∧
    sampleExplicit ∈ [sampleExplicit, sampleExplicitBold] ∧
    dget (normalize_inputs (.listArg [sampleExplicit, sampleExplicitBold]))
      "x" = some sampleExplicit ∧
    normalize_inputs .noneArg = ([] : List (String × ExplicitInput)) ∧
    dget (normalize_inputs (.listArg [sampleExplicit, sampleExplicitBold]))
      sampleExplicit.spec_name = some sampleExplicit ∧
    sampleExplicit.spec_name = "x" ∧
    sampleExplicit ∈ [sampleExplicit, sampleExplicitBold] :=
  ⟨by decide, by decide, by decide,
    (list_inputs_keyed [sampleExplicit, sampleExplicitBold] (by decide)
      sampleExplicit (by decide) "x" sampleExplicit (by decide)).1,
    (list_inputs_keyed [sampleExplicit, sampleExplicitBold] (by decide)
      sampleExplicit (by decide) "x" sampleExplicit (by decide)).2.1,
    (list_inputs_keyed [sampleExplicit, sampleExplicitBold] (by decide)
      sampleExplicit (by decide) "x" sampleExplicit (by decide)).2.2.1,
    (list_inputs_keyed [sampleExplicit, sampleExplicitBold] (by decide)
      sampleExplicit (by decide) "x" sampleExplicit (by decide)).2.2.2⟩

/-- C9: duplicate keys raise no error while the defaults mapping is
built — `get_bids_inputs` is total — and the last-inserted entry
silently wins.  For a simple class the mapping at any key is the
last declared input with that name (bound); for a composite class,
two sub-analyses whose prefixing collides (here: the same sub-analysis
name) leave only the later input in the result. -/
theorem duplicate_last_write_wins (l : List BidsInput)
    (task repository : Option String) (k : String) (i1 i2 : BidsInput)
    (task2 : Option String) (h12 : i1.name = i2.name) :
    dget (get_bids_inputs (.simple (some l)) task repository) k
      = (lastVal (l.map fun i => (i.name, i)) k).map
          (bindInput task repository) ∧
    get_bids_inputs (.multi [⟨"a", some [i1]⟩, ⟨"a", some [i2]⟩])
        task2 none
      = [(applyPrefix "a" i2.name,
          bindInput task2 none (prefixAssoc "a" i2))] := by
  constructor
  · rw [dget_get_bids_inputs, dget_buildDefaults_simple]
  · have hbd : buildDefaults (.multi [⟨"a", some [i1]⟩, ⟨"a", some [i2]⟩])
        = [(applyPrefix "a" i2.name, prefixAssoc "a" i2)] := by
      simp [buildDefaults, flattenSpec, dinsert, h12]
    show (buildDefaults (.multi [⟨"a", some [i1]⟩, ⟨"a", some [i2]⟩])).foldl
        _ [] = _
    rw [hbd]
    rfl

/-- C9 witness: two declared inputs both named `bold` — only the
second, task-bound, survives in the resolved mapping. -/
theorem duplicate_last_write_wins_witness :
    sampleDefault.name = (sampleDefault.name : String) ∧
    dget (get_bids_inputs
        (.simple (some [sampleDefault,
          ⟨"bold", none, none, false, "", "second"⟩])) none none) "bold"
      = some (bindInput none none
          ⟨"bold", none, none, false, "", "second"⟩) ∧
    get_bids_inputs
        (.multi [⟨"a", some [sampleDefault]⟩,
                 ⟨"a", some [⟨"bold", none, none, false, "", "second"⟩]⟩])
        none none
      = [(applyPrefix "a" "bold",
          bindInput none none
            (prefixAssoc "a" ⟨"bold", none, none, false, "", "second"⟩))] :=
  ⟨rfl,
    by
      rw [(duplicate_last_write_wins
        [sampleDefault, ⟨"bold", none, none, false, "", "second"⟩]
        none none "bold" sampleDefault
        ⟨"bold", none, none, false, "", "second"⟩ none rfl).1]
      decide,
    (duplicate_last_write_wins
      [sampleDefault, ⟨"bold", none, none, false, "", "second"⟩]
      none none "bold" sampleDefault
      ⟨"bold", none, none, false, "", "second"⟩ none rfl).2⟩

/-- C10: on a BIDS-type dataset, `BidsMixin.__init__` invokes
`get_bids_inputs` without a repository argument, so every default entry
of the final mapping has its repository reference equal to `None`: the
constructor never binds the defaults to the dataset it was given. -/
theorem defaults_unbound_repository (cls : AnalysisClass) (ds : Dataset)
    (inputs : InputsArg) (task : Option String) (name : String)
    (i : BidsInput) (hb : ds.type = "bids")
    (hi : dget (bidsMixin_init_inputs cls ds inputs task) name
      = some (.default i)) : i.repository = none := by
  have hres : dget (bidsMixin_init_inputs cls ds inputs task) name
      = oor ((lastVal (normalize_inputs inputs) name).map
            InputEntry.explicit)
          ((dget (get_bids_inputs cls task none) name).map
            InputEntry.default) := by
    simp only [bidsMixin_init_inputs]
    rw [if_pos hb, dget_dupdate, dget_map_val, lastVal_map]
  rw [hres] at hi
  cases he : lastVal (normalize_inputs inputs) name with
  | some e =>
      rw [he] at hi
      exact absurd hi (by simp [oor])
  | none =>
      rw [he] at hi
      cases hd : dget (get_bids_inputs cls task none) name with
      | none =>
          rw [hd] at hi
          exact absurd hi (by simp [oor])
      | some j =>
          rw [hd] at hi
          have hji : j = i := by
            have h2 : InputEntry.default j = InputEntry.default i := by
              simpa [oor] using hi
            cases h2
            rfl
          rw [dget_get_bids_inputs] at hd
          cases hb2 : dget (buildDefaults cls) name with
          | none =>
              rw [hb2] at hd
              simp at hd
          | some j0 =>
              rw [hb2] at hd
              have h3 : bindInput task none j0 = j := by
                simpa using hd
              rw [← hji, ← h3]
              exact bindInput_repository task none j0

/-- C10 witness: the default `bold` entry surviving into the merged
mapping carries no repository binding. -/
theorem defaults_unbound_repository_witness :
    (Dataset.mk "bids").type = "bids" ∧
    dget (bidsMixin_init_inputs sampleSimple ⟨"bids"⟩
        (.listArg [sampleExplicit]) (some "rest")) "bold"
      = some (.default (bindInput (some "rest") none sampleDefault)) ∧
    (bindInput (some "rest") none sampleDefault).repository = none :=
  ⟨rfl, by decide,
    defaults_unbound_repository sampleSimple ⟨"bids"⟩
      (.listArg [sampleExplicit]) (some "rest") "bold"
      (bindInput (some "rest") none sampleDefault) rfl (by decide)⟩

/-- C3: `get_bids_inputs` never mutates the class-level declared
defaults: for any store in which the declared references are allocated,
every declared object holds the same value after the call (for any task
and repository arguments), every entry of the returned mapping is a
freshly allocated reference distinct from every declared one, and the
declared references stay allocated, so the call can be repeated at will
(the class-level list itself is immutable data in this embedding and
the code never rebinds it). -/
theorem defaults_never_mutated (cls : AnalysisClassR)
    (task repository : Option String) (s : Store)
    (hv : ∀ r ∈ classRefs cls, r < s.next) :
    (∀ r ∈ classRefs cls,
      (getBidsInputsH cls task repository s).2.heap r = s.heap r) ∧
    (∀ q ∈ (getBidsInputsH cls task repository s).1,
      s.next ≤ q.2 ∧ q.2 ∉ classRefs cls) ∧
    (∀ r ∈ classRefs cls,
      r < (getBidsInputsH cls task repository s).2.next) := by
  obtain ⟨hext, hfresh⟩ := getBidsInputsH_spec cls task repository s
  refine ⟨fun r hr => hext.2 r (hv r hr), fun q hq => ⟨hfresh q hq, ?_⟩,
    fun r hr => Nat.lt_of_lt_of_le (hv r hr) hext.1⟩
  intro hmem
  exact absurd (hv q.2 hmem) (Nat.not_lt.mpr (hfresh q hq))

/-- C3 witness: resolving `sampleClassR` on `sampleStore` with
`task=rest` leaves the single declared object (reference 0)
untouched. -/
theorem defaults_never_mutated_witness :
    (∀ r ∈ classRefs sampleClassR, r < sampleStore.next) ∧
    ((∀ r ∈ classRefs sampleClassR,
        (getBidsInputsH sampleClassR (some "rest") none
          sampleStore).2.heap r = sampleStore.heap r) ∧
      (∀ q ∈ (getBidsInputsH sampleClassR (some "rest") none
          sampleStore).1,
        sampleStore.next ≤ q.2 ∧ q.2 ∉ classRefs sampleClassR) ∧
      (∀ r ∈ classRefs sampleClassR,
        r < (getBidsInputsH sampleClassR (some "rest") none
          sampleStore).2.next)) :=
  ⟨by decide,
    defaults_never_mutated sampleClassR (some "rest") none sampleStore
      (by decide)⟩

/-- C6: in the composite variant of `get_bids_inputs`, every associated
entry of the flattened defaults mapping is the copy of a declared
associated input whose `prefixed_primary_name` has been recomputed as
the sub-analysis's name-prefixing function applied to the primary
input's bare name; on the heap, the original associated object is left
unchanged by the call and its reference never appears in the result. -/
theorem assoc_copy_recomputed (specs : List SubcompSpec)
    (q : String × BidsInput) (hq : q ∈ buildDefaults (.multi specs))
    (ha : q.2.isAssoc = true) (clsR : AnalysisClassR)
    (task repository : Option String) (s : Store)
    (hv : ∀ r ∈ classRefs clsR, r < s.next) (r : Nat)
    (hr : r ∈ classRefs clsR) (_hra : (s.heap r).isAssoc = true) :
    (∃ spec ∈ specs, ∃ l, spec.defaults = some l ∧ ∃ i ∈ l,
        i.isAssoc = true ∧ q.2 = prefixAssoc spec.name i ∧
        q.2.prefixedPrimaryName = applyPrefix spec.name i.primaryName) ∧
    ((getBidsInputsH clsR task repository s).2.heap r = s.heap r ∧
      ∀ q2 ∈ (getBidsInputsH clsR task repository s).1, q2.2 ≠ r) := by
  constructor
  · rcases mem_buildDefaults_multi hq with ⟨spec, hsp, l, hl, i, hi, hqi⟩
    have hqv : q.2 = prefixAssoc spec.name i := by rw [hqi]
    have hia : i.isAssoc = true := by
      rw [← prefixAssoc_isAssoc spec.name i, ← hqv]
      exact ha
    refine ⟨spec, hsp, l, hl, i, hi, hia, hqv, ?_⟩
    rw [hqv, prefixAssoc_prefixedPrimaryName hia]
  · obtain ⟨hext, hfresh⟩ := getBidsInputsH_spec clsR task repository s
    refine ⟨hext.2 r (hv r hr), fun q2 hq2 he => ?_⟩
    have hge := hfresh q2 hq2
    rw [he] at hge
    exact absurd (hv r hr) (Nat.not_lt.mpr hge)

/-- C6 witness: the associated input `sampleAssocIn` declared by `sub1`
appears in the flattened defaults with `prefixed_primary_name`
recomputed to `sub1_bold`, and on the heap the original at reference 0
is unchanged and absent from the result. -/
theorem assoc_copy_recomputed_witness :
    (applyPrefix "sub1" sampleAssocIn.name,
        prefixAssoc "sub1" sampleAssocIn)
      ∈ buildDefaults (.multi [⟨"sub1", some [sampleAssocIn]⟩]) ∧
    (prefixAssoc "sub1" sampleAssocIn).isAssoc = true ∧
    (prefixAssoc "sub1" sampleAssocIn).prefixedPrimaryName
      = applyPrefix "sub1" sampleAssocIn.primaryName ∧
    ((getBidsInputsH sampleClassR (some "rest") none
        sampleStore).2.heap 0 = sampleStore.heap 0 ∧
      ∀ q2 ∈ (getBidsInputsH sampleClassR (some "rest") none
        sampleStore).1, q2.2 ≠ 0) :=
  ⟨by decide, by decide, by decide,
    (assoc_copy_recomputed [⟨"sub1", some [sampleAssocIn]⟩]
      (applyPrefix "sub1" sampleAssocIn.name,
        prefixAssoc "sub1" sampleAssocIn)
      (by decide) (by decide) sampleClassR (some "rest") none sampleStore
      (by decide) 0 (by decide) (by decide)).2⟩
